import Mathlib

/-!
Verification development for the piano-key-detection audio analysis core.

The definitions below are a shallow embedding of the analysis pipeline
implemented in `src/utils/keyDetection.ts` (class `KeyDetector`) and
`src/utils/audioProcessor.ts` (class `SmartAudioProcessor`).  JavaScript
floating-point numbers are modelled by real numbers; mutable instance
fields are modelled by explicit state passing; nullable results by
`Option`.  Bounded `push`-then-`shift` histories are modelled by
`pushCap`.
-/

/-- JS `array.push(a); if (array.length > cap) array.shift();` -/
def pushCap {α : Type} (cap : ℕ) (l : List α) (a : α) : List α :=
  let l2 := l ++ [a]
  if cap < l2.length then l2.tail else l2

/-- Mean of a list of reals; the empty list yields `0 / 0 = 0`, which agrees
with the `length > 0 ? sum / length : 0` guards used throughout the source. -/
noncomputable def listMean (l : List ℝ) : ℝ := l.sum / l.length

namespace KeyDetection

/-- `'major' | 'minor'` of `src/types/audio.ts`. -/
inductive Mode where
  | major : Mode
  | minor : Mode
deriving DecidableEq

/-- `ChromaData` of `src/types/audio.ts`. -/
structure ChromaData where
  vector : List ℝ
  dominant : ℕ
  confidence : ℝ

/-- `KeyDetectionResult` of `src/types/audio.ts`.  The `key` field holds one
of the twelve `NOTE_NAMES` strings. -/
structure KeyDetectionResult where
  key : String
  mode : Mode
  confidence : ℝ
  chroma : ChromaData

/-- The `NOTE_NAMES` table of `keyDetection.ts`: the twelve pitch-class
names from C to B in sharp spelling, in source order. -/
def NOTE_NAMES : List String :=
  ["C", "C#", "D"] ++ ["D#", "E", "F"] ++ ["F#", "G", "G#"] ++ ["A", "A#", "B"]

/-- `KEY_PROFILES` (Krumhansl-Schmuckler) of `keyDetection.ts`. -/
def KEY_PROFILES (m : Mode) : List ℝ :=
  match m with
  | .major => [6.35, 2.23, 3.48, 2.33, 4.38, 4.09, 2.52, 5.19, 2.39, 3.66, 2.29, 2.88]
  | .minor => [6.33, 2.68, 3.52, 5.38, 2.60, 3.53, 2.54, 4.75, 3.98, 2.69, 3.34, 3.17]

/-- `this.historyLength` of `KeyDetector`. -/
def historyLength : ℕ := 5

/-- `this.confidenceThreshold` of `KeyDetector`. -/
noncomputable def confidenceThreshold : ℝ := 0.05

/-- `calculateKeyScore` of `keyDetection.ts`: Pearson correlation between the
rotated chroma vector and the mode profile, with a zero-variance guard. -/
noncomputable def calculateKeyScore (chroma : List ℝ) (root : ℕ) (mode : Mode) : ℝ :=
  let profile := KEY_PROFILES mode
  let chromaMean := (∑ i ∈ Finset.range 12, chroma.getD ((i + root) % 12) 0) / 12
  let profileMean := (∑ i ∈ Finset.range 12, profile.getD i 0) / 12
  let correlation := ∑ i ∈ Finset.range 12,
    (chroma.getD ((i + root) % 12) 0 - chromaMean) * (profile.getD i 0 - profileMean)
  let chromaSum := ∑ i ∈ Finset.range 12, (chroma.getD ((i + root) % 12) 0 - chromaMean) ^ 2
  let profileSum := ∑ i ∈ Finset.range 12, (profile.getD i 0 - profileMean) ^ 2
  if chromaSum = 0 ∨ profileSum = 0 then 0
  else correlation / (Real.sqrt chromaSum * Real.sqrt profileSum)

/-- The 24 `(root, mode)` combinations in the loop order of `detectKey`
(roots `0..11` outer, `major` then `minor` inner). -/
def keyModePairs : List (ℕ × Mode) :=
  (List.range 12).flatMap (fun r => [(r, Mode.major), (r, Mode.minor)])

/-- The `bestScore`-selection loop of `detectKey`.  The JS accumulator starts
at `bestScore = -Infinity`, modelled by `Option.none` (any real score beats
it); updates happen on strictly greater scores. -/
noncomputable def bestKeyOf (v : List ℝ) : (String × Mode) × Option ℝ :=
  keyModePairs.foldl
    (fun acc km =>
      let score := calculateKeyScore v km.1 km.2
      let better : Bool := match acc.2 with
        | none => true
        | some b => decide (b < score)
      if better then ((NOTE_NAMES.getD km.1 "", km.2), some score) else acc)
    (("", Mode.major), none)

/-- `normalizeScore` of `keyDetection.ts`: `max(0, min(1, (score+1)/2))`.
For the unreachable `-Infinity` accumulator the JS expression evaluates to
`0`, hence the `none` branch. -/
noncomputable def normalizeScore (s : Option ℝ) : ℝ :=
  match s with
  | none => 0
  | some x => max 0 (min 1 ((x + 1) / 2))

/-- `addToHistory` of `KeyDetector`: push, then drop the oldest entry when
the capacity (5) is exceeded. -/
def addToHistory (h : List KeyDetectionResult) (r : KeyDetectionResult) :
    List KeyDetectionResult :=
  pushCap historyLength h r

/-- The `(key, mode)` pair of a result.  In the source these pairs are
encoded as the string `key + "_" + mode` for use as JS object keys; the
encoding is injective on the underscore-free `NOTE_NAMES`, so counting
pairs models counting encoded strings exactly. -/
def pairOf (r : KeyDetectionResult) : String × Mode := (r.key, r.mode)

/-- Number of occurrences of a `(key, mode)` pair in the history. -/
def countPair (h : List KeyDetectionResult) (p : String × Mode) : ℕ :=
  h.countP (fun r => decide (pairOf r = p))

/-- First-occurrence deduplication: the insertion order of the keys of the
JS object `keyCount` built by `getSmoothedResult`. -/
def firstOccs : List (String × Mode) → List (String × Mode)
  | [] => []
  | a :: l => a :: firstOccs (l.filter (fun b => decide (b ≠ a)))
termination_by l => l.length
decreasing_by
  exact Nat.lt_succ_of_le (List.length_filter_le _ _)

/-- `Object.entries(keyCount)`: pairs in first-occurrence order, each with
its total number of occurrences in the history. -/
def keyCountEntries (h : List KeyDetectionResult) :
    List ((String × Mode) × ℕ) :=
  (firstOccs (h.map pairOf)).map (fun p => (p, countPair h p))

/-- The `maxCount` tracked by the selection loop of `getSmoothedResult`:
`0` while no entry has been taken (`mostCommon === ''`). -/
def accCount (acc : Option ((String × Mode) × ℕ)) : ℕ :=
  match acc with
  | none => 0
  | some a => a.2

/-- One step of the `mostCommon` / `maxCount` selection loop: take the entry
when its count strictly exceeds the current maximum. -/
def pickStep (acc : Option ((String × Mode) × ℕ)) (e : (String × Mode) × ℕ) :
    Option ((String × Mode) × ℕ) :=
  if accCount acc < e.2 then some e else acc

/-- The `mostCommon` / `maxCount` selection loop of `getSmoothedResult`,
starting from `maxCount = 0` and no chosen key (modelled by `none`). -/
def pickMost (entries : List ((String × Mode) × ℕ)) :
    Option ((String × Mode) × ℕ) :=
  entries.foldl pickStep none

/-- `getSmoothedResult` of `keyDetection.ts`. -/
noncomputable def getSmoothedResult (h : List KeyDetectionResult) :
    Option KeyDetectionResult :=
  match h.getLast? with
  | none => none
  | some latest =>
    if h.length < 3 then some latest
    else
      match pickMost (keyCountEntries h) with
      | none => some latest
      | some (p, maxCount) =>
        some ⟨p.1, p.2, min 1 ((maxCount : ℝ) / historyLength * latest.confidence),
              latest.chroma⟩

/-- `detectKey` of `keyDetection.ts`, with the key history threaded
explicitly.  Returns the (possibly null) smoothed result together with the
new history. -/
noncomputable def detectKey (hist : List KeyDetectionResult) (chroma : ChromaData) :
    Option KeyDetectionResult × List KeyDetectionResult :=
  if chroma.vector.length ≠ 12 then (none, hist)
  else if chroma.vector.sum < 0.01 then (none, hist)
  else
    let best := bestKeyOf chroma.vector
    let confidence := normalizeScore best.2
    if confidence < confidenceThreshold then (none, hist)
    else
      let r : KeyDetectionResult := ⟨best.1.1, best.1.2, confidence, chroma⟩
      let hist2 := addToHistory hist r
      (getSmoothedResult hist2, hist2)

/-- `reset` of `KeyDetector`. -/
def reset : List KeyDetectionResult := []

end KeyDetection

namespace AudioProc

open KeyDetection (ChromaData)

/-- `PitchData` of `src/types/audio.ts`. -/
structure PitchData where
  frequency : ℝ
  confidence : ℝ
  timestamp : ℝ
deriving Inhabited

/-- `AudioState` of `src/types/audio.ts`. -/
inductive AudioState where
  | IDLE : AudioState
  | NOISE_DETECTED : AudioState
  | MUSICAL_INPUT : AudioState
  | PROCESSING : AudioState
deriving DecidableEq

/-- `RhythmData` of `audioProcessor.ts`. -/
structure RhythmData where
  tempo : ℝ
  beatStrength : ℝ
  timeSignature : String
  currentBeat : ℝ
  isOnBeat : Bool

/-- `HarmonyType` : the `harmonyType` union of `HarmonyAnalysis`. -/
inductive HarmonyType where
  | melody : HarmonyType
  | chord : HarmonyType
  | both : HarmonyType
  | none : HarmonyType
deriving DecidableEq

/-- `HarmonyAnalysis` of `audioProcessor.ts`. -/
structure HarmonyAnalysis where
  melodyNotes : List String
  chordNotes : List String
  rhythmData : RhythmData
  harmonyType : HarmonyType

/-- `this.config.sampleRate` (fixed default 44100; the config object of
`SmartAudioProcessor` is private and never reassigned). -/
noncomputable def cfgSampleRate : ℝ := 44100

/-- `this.config.minFreq` (fixed default 80). -/
noncomputable def cfgMinFreq : ℝ := 80

/-- `this.config.maxFreq` (fixed default 1100). -/
noncomputable def cfgMaxFreq : ℝ := 1100

/-- The mutable fields of `SmartAudioProcessor` reached by the analysis
path, threaded explicitly.  `thresholdMin` is `this.noiseGate.thresholdMin`
(default −65, settable via `setNoiseGateThreshold`); the remaining
`noiseGate` and `signalDetection` fields are fixed constants inlined at
their use sites.  `melodySequence`/`chordSequence` entries carry
`(payload, time, duration)`, duration always 0 as in the source. -/
structure ProcState where
  noiseFloor : ℝ
  thresholdMin : ℝ
  pitchHistory : List PitchData
  harmonicHistory : List ℝ
  pitchStabilityHistory : List ℝ
  amplitudeHistory : List ℝ
  beatHistory : List ℝ
  lastBeatTime : ℝ
  tempoHistory : List ℤ
  polyphonicMode : Bool
  lastMelodyNote : Option String
  lastMelodyNoteTime : ℝ
  lastChordNotes : List String
  lastChordTime : ℝ
  melodySequence : List (String × ℝ × ℝ)
  chordSequence : List (List String × ℝ × ℝ)

/-- The initial field values of a fresh `SmartAudioProcessor`. -/
noncomputable def initialState : ProcState where
  noiseFloor := -60
  thresholdMin := -65
  pitchHistory := []
  harmonicHistory := []
  pitchStabilityHistory := []
  amplitudeHistory := []
  beatHistory := []
  lastBeatTime := 0
  tempoHistory := []
  polyphonicMode := false
  lastMelodyNote := none
  lastMelodyNoteTime := 0
  lastChordNotes := []
  lastChordTime := 0
  melodySequence := []
  chordSequence := []

/-- `calculateRMS`: root mean square of the time-domain buffer.  For the
empty buffer `0 / 0 = 0`; the JS code yields `NaN`, and both fail the
`amplitude > 0` test downstream. -/
noncomputable def calculateRMS (buffer : List ℝ) : ℝ :=
  Real.sqrt ((buffer.map (fun x => x * x)).sum / buffer.length)

/-- `updateNoiseFloor`: exponential moving average with `alpha = 0.001`. -/
noncomputable def updateNoiseFloor (noiseFloor amplitudeDB : ℝ) : ℝ :=
  noiseFloor * (1 - 0.001) + amplitudeDB * 0.001

/-- `applyNoiseGate`: open iff the amplitude exceeds
`max(noiseFloor + 8, thresholdMin)`. -/
noncomputable def applyNoiseGate (noiseFloor thresholdMin amplitudeDB : ℝ) : Bool :=
  decide (max (noiseFloor + 8) thresholdMin < amplitudeDB)

/-- `autocorrelate`: raw autocorrelation at every lag, normalized by the
lag-0 value when that is positive. -/
noncomputable def autocorrelate (buffer : List ℝ) : List ℝ :=
  let raw := (List.range buffer.length).map
    (fun lag => ∑ i ∈ Finset.range (buffer.length - lag),
      buffer.getD i 0 * buffer.getD (i + lag) 0)
  let r0 := raw.getD 0 0
  if 0 < r0 then raw.map (fun x => x / r0) else raw

/-- `detectPitch`: monophonic autocorrelation pitch estimate.  The loop
upper bound `period < min(maxPeriod, correlations.length / 2)` uses a JS
float division, equivalent over integers to `period < maxPeriod` and
`period < ceil(len / 2)`. -/
noncomputable def detectPitch (now : ℝ) (timeData : List ℝ) : Option PitchData :=
  let correlations := autocorrelate timeData
  let minPeriod : ℕ := ⌊cfgSampleRate / 2000⌋₊
  let maxPeriod : ℕ := ⌊cfgSampleRate / cfgMinFreq⌋₊
  let bound := min maxPeriod ((correlations.length + 1) / 2)
  let best := ((List.range bound).drop minPeriod).foldl
    (fun acc period =>
      if acc.2 < correlations.getD period 0 then (period, correlations.getD period 0)
      else acc)
    ((0 : ℕ), (0 : ℝ))
  if best.2 < 0.2 ∨ best.1 = 0 then none
  else
    let frequency := cfgSampleRate / best.1
    if frequency < 50 ∨ 2000 < frequency then none
    else some ⟨frequency, best.2, now⟩

/-- `detectSpectralPeaks`: local maxima of the dB spectrum in `[80, 2000]`
Hz above −40 dB, with prominence-based confidence
`min(1, max(0, (prominence + 20) / 30))`, kept when the confidence exceeds
0.2, sorted by confidence descending, capped at 8. -/
noncomputable def detectSpectralPeaks (now : ℝ) (frequencyData : List ℝ) :
    List PitchData :=
  let binCount := frequencyData.length
  let binWidth := cfgSampleRate / (2 * binCount)
  let peaks := ((List.range (binCount - 2)).drop 2).filterMap
    (fun (i : ℕ) =>
      let frequency := (i : ℝ) * binWidth
      if frequency < 80 ∨ 2000 < frequency then none
      else
        let magnitude := frequencyData.getD i 0
        let leftMag := frequencyData.getD (i - 1) 0
        let rightMag := frequencyData.getD (i + 1) 0
        if leftMag < magnitude ∧ rightMag < magnitude ∧ -40 < magnitude then
          let prominence := magnitude - max leftMag rightMag
          let confidence := min 1 (max 0 ((prominence + 20) / 30))
          if 0.2 < confidence then some ⟨frequency, confidence, now⟩ else none
        else none)
  (peaks.mergeSort (fun a b => decide (b.confidence ≤ a.confidence))).take 8

/-- The spectral-peak merge loop of `detectMultiplePitches`: append each
peak that is not within 10 Hz of an already-included frequency and has
confidence above 0.3. -/
noncomputable def mergePitches (mono : List PitchData) (peaks : List PitchData) :
    List PitchData :=
  peaks.foldl
    (fun acc sp =>
      let isDuplicate := acc.any (fun ex => decide (|ex.frequency - sp.frequency| < 10))
      if isDuplicate = false ∧ 0.3 < sp.confidence then acc ++ [sp] else acc)
    mono

/-- Modelled from the spec: the merge as the specification describes it,
dropping a spectral peak only when it lies within 10 Hz of an
already-included frequency (no confidence condition). -/
noncomputable def specMergePitches (mono : List PitchData) (peaks : List PitchData) :
    List PitchData :=
  peaks.foldl
    (fun acc sp =>
      let isDuplicate := acc.any (fun ex => decide (|ex.frequency - sp.frequency| < 10))
      if isDuplicate = false then acc ++ [sp] else acc)
    mono

/-- `detectMultiplePitches`: the monophonic estimate merged with the
spectral peaks, sorted by confidence descending, capped at 6. -/
noncomputable def detectMultiplePitches (now : ℝ) (timeData frequencyData : List ℝ) :
    List PitchData :=
  let pitches := match detectPitch now timeData with
    | none => []
    | some p => [p]
  let spectralPitches := detectSpectralPeaks now frequencyData
  let merged := mergePitches pitches spectralPitches
  (merged.mergeSort (fun a b => decide (b.confidence ≤ a.confidence))).take 6

/-- `detectOnset`: onset strength from the last three amplitude samples.
The unused `timeData` parameter of the source is omitted. -/
noncomputable def detectOnset (amplitudeHistory : List ℝ) : ℝ :=
  if amplitudeHistory.length < 3 then 0
  else
    let recent := amplitudeHistory.drop (amplitudeHistory.length - 3)
    let current := recent.getD 2 0
    let previous := recent.getD 1 0
    let beforePrevious := recent.getD 0 0
    let increase1 := current - previous
    let increase2 := previous - beforePrevious
    if 3 < increase1 ∧ increase2 * 1.5 < increase1 then min 1 (increase1 / 10)
    else 0

/-- The inter-beat intervals `beatHistory[i] - beatHistory[i-1]`. -/
noncomputable def beatIntervals (beatHistory : List ℝ) : List ℝ :=
  List.zipWith (fun a b => a - b) beatHistory.tail beatHistory

/-- `analyzeRhythm`: amplitude history, beat registration, tempo smoothing
and beat-phase computation, with `Date.now()` passed as `now`. -/
noncomputable def analyzeRhythm (s : ProcState) (now : ℝ) (amplitudeDB : ℝ) :
    RhythmData × ProcState :=
  let ampHist := pushCap 100 s.amplitudeHistory amplitudeDB
  let beatStrength := detectOnset ampHist
  let startBeat :=
    if 0.6 < beatStrength ∧ 200 < now - s.lastBeatTime
    then (pushCap 8 s.beatHistory now, now)
    else (s.beatHistory, s.lastBeatTime)
  let beatHist := startBeat.1
  let lastBeat := startBeat.2
  let tempoPair :=
    if 4 ≤ beatHist.length then
      let avgInterval := listMean (beatIntervals beatHist)
      let tempo1 : ℤ := round (60000 / avgInterval)
      let th := pushCap 5 s.tempoHistory tempo1
      (round (listMean (th.map (fun z => (z : ℝ)))), th)
    else ((120 : ℤ), s.tempoHistory)
  let tempo := tempoPair.1
  let timeSinceLastBeat := now - lastBeat
  let beatInterval := 60000 / (tempo : ℝ)
  let currentBeat : ℤ := ⌊timeSinceLastBeat / beatInterval⌋ + 1
  (⟨max 60 (min 200 (tempo : ℝ)), beatStrength, "4/4",
      max 1 (min 4 (currentBeat : ℝ)), decide (timeSinceLastBeat < 100)⟩,
    { s with
      amplitudeHistory := ampHist
      beatHistory := beatHist
      lastBeatTime := lastBeat
      tempoHistory := tempoPair.2 })

/-- The `NOTE_NAMES` table of `frequencyToNote` in `audioProcessor.ts`
(identical to the `keyDetection.ts` table). -/
def noteNames : List String := KeyDetection.NOTE_NAMES

/-- `frequencyToNote`: nearest-MIDI rounding to `(name, octave)`.  The MIDI
numbers arising from audible frequencies are nonnegative, where the JS `%`
agrees with `Int.emod`; out-of-range table indexing is modelled by the
`getD` default. -/
noncomputable def frequencyToNote (frequency : ℝ) : String × ℤ :=
  let midiNumber : ℤ := round (12 * Real.logb 2 (frequency / 440) + 69)
  let octave := midiNumber.fdiv 12 - 1
  (noteNames.getD (midiNumber.emod 12).toNat "", max 0 octave)

/-- `calculateSemitones`: `round(12 * log2(freq2 / freq1))`. -/
noncomputable def calculateSemitones (freq1 freq2 : ℝ) : ℤ :=
  round (12 * Real.logb 2 (freq2 / freq1))

/-- The per-pitch record built at the top of `analyzeMelodyHarmony`. -/
structure NoteD where
  note : String
  frequency : ℝ
  confidence : ℝ
  octave : ℤ
deriving Inhabited

/-- Conversion of one pitch candidate to its note record. -/
noncomputable def toNoteD (p : PitchData) : NoteD :=
  let fn := frequencyToNote p.frequency
  ⟨fn.1, p.frequency, p.confidence, fn.2⟩

/-- `analyzeMelodyHarmony` of `audioProcessor.ts`, with `Date.now()` passed
as `now`.  The source wraps the body in `try`/`catch`; no modelled
operation throws, so the catch path (returning `harmonyType: 'none'`) is
unreachable. -/
noncomputable def analyzeMelodyHarmony (s : ProcState) (now : ℝ)
    (pitches : List PitchData) (rhythmData : RhythmData) :
    HarmonyAnalysis × ProcState :=
  if pitches.length = 0 then (⟨[], [], rhythmData, .none⟩, s)
  else
    let noteData := pitches.map toNoteD
    if s.polyphonicMode then
      let strongNotes := noteData.filter (fun n => decide ((0.05 : ℝ) < n.confidence))
      if 2 ≤ strongNotes.length then
        let cn := strongNotes.map (fun n => n.note)
        (⟨[], cn, rhythmData, .chord⟩,
          { s with lastChordNotes := cn, lastChordTime := now })
      else if 2 ≤ s.lastChordNotes.length ∧ now - s.lastChordTime < 50 then
        (⟨[], s.lastChordNotes, rhythmData, .chord⟩, s)
      else (⟨[], [], rhythmData, .chord⟩, s)
    else if noteData.length = 1 then
      let detectedNote := (noteData.getD 0 default).note
      let step :=
        if s.lastMelodyNote = some detectedNote ∨ s.lastMelodyNote = none then
          ([detectedNote],
            { s with lastMelodyNote := some detectedNote, lastMelodyNoteTime := now })
        else if now - s.lastMelodyNoteTime < 200 then
          ([s.lastMelodyNote.getD ""], s)
        else
          ([detectedNote],
            { s with lastMelodyNote := some detectedNote, lastMelodyNoteTime := now })
      let s2 := { step.2 with
        melodySequence := pushCap 20 step.2.melodySequence (step.1.getD 0 "", now, 0) }
      (⟨step.1, [], rhythmData, .melody⟩, s2)
    else
      let sorted := noteData.mergeSort (fun a b => decide (a.frequency ≤ b.frequency))
      let intervals := List.zipWith
        (fun cur prev => calculateSemitones prev.frequency cur.frequency)
        sorted.tail sorted
      let hasChordIntervals := intervals.any
        (fun iv => decide ((3 ≤ iv ∧ iv ≤ 4) ∨ iv = 5 ∨ iv = 7))
      if hasChordIntervals = true ∧ 3 ≤ noteData.length then
        let cn := sorted.map (fun n => n.note)
        (⟨[], cn, rhythmData, .chord⟩,
          { s with chordSequence := pushCap 10 s.chordSequence (cn, now, 0) })
      else
        (⟨[(sorted.getLastD default).note], (sorted.dropLast).map (fun n => n.note),
            rhythmData, .both⟩, s)

/-- Linear magnitude of a dB value: `Math.pow(10, db / 20)`. -/
noncomputable def linMag (db : ℝ) : ℝ := (10 : ℝ) ^ (db / 20)

/-- `analyzeHarmonicContent`: energy at harmonics 1–5 of the fundamental
over total in-band energy in `[minFreq, maxFreq] = [80, 1100]`. -/
noncomputable def analyzeHarmonicContent (frequencyData : List ℝ)
    (fundamentalFreq : ℝ) : ℝ :=
  let binCount := frequencyData.length
  let binWidth := cfgSampleRate / (2 * binCount)
  let harmonicEnergy := ∑ k ∈ Finset.range 5,
    (let binIndex : ℤ := round ((fundamentalFreq * ((k : ℝ) + 1)) / binWidth)
     if 0 < binIndex ∧ binIndex < (binCount : ℤ) then
       linMag (frequencyData.getD binIndex.toNat 0)
     else 0)
  let minBin : ℤ := max 1 ⌊cfgMinFreq / binWidth⌋
  let maxBin : ℤ := min ((binCount : ℤ) - 1) ⌊cfgMaxFreq / binWidth⌋
  let totalEnergy := ∑ i ∈ Finset.Icc minBin maxBin,
    linMag (frequencyData.getD i.toNat 0)
  if 0 < totalEnergy then harmonicEnergy / totalEnergy else 0

/-- The stability value computed by `measurePitchStability` from the
already-updated pitch history (the push itself happens in
`isMusicalContent` below). -/
noncomputable def measurePitchStabilityVal (pitchHistory : List PitchData) : ℝ :=
  if pitchHistory.length < 3 then 0
  else
    let frequencies := pitchHistory.map (fun p => p.frequency)
    let mean := listMean frequencies
    let variance := listMean (frequencies.map (fun f => (f - mean) ^ 2))
    let standardDeviation := Real.sqrt variance
    let relativeStability :=
      if 0 < mean then 1 - min 1 (standardDeviation / mean) else 0
    max 0 relativeStability

/-- `calculateSpectralCentroid`: magnitude-weighted mean frequency over
bins (from index 1) whose linear magnitude exceeds 0.001. -/
noncomputable def calculateSpectralCentroid (frequencyData : List ℝ) : ℝ :=
  let binCount := frequencyData.length
  let keep := fun (i : ℕ) => 1 ≤ i ∧ (0.001 : ℝ) < linMag (frequencyData.getD i 0)
  let weightedSum := ∑ i ∈ Finset.range binCount,
    (if keep i then ((i : ℝ) * cfgSampleRate / (2 * binCount)) *
      linMag (frequencyData.getD i 0) else 0)
  let magnitudeSum := ∑ i ∈ Finset.range binCount,
    (if keep i then linMag (frequencyData.getD i 0) else 0)
  if 0 < magnitudeSum then weightedSum / magnitudeSum else 0

/-- `calculateZeroCrossingRate`: sign changes between consecutive samples
over the buffer length. -/
noncomputable def calculateZeroCrossingRate (timeData : List ℝ) : ℝ :=
  ((List.zipWith (fun a b => decide ((0 ≤ a) ≠ (0 ≤ b))) timeData.tail timeData).count
    true : ℝ) / timeData.length

/-- `detectSustainedTone`, evaluated on the already-updated pitch history:
false below 4 samples, else mean confidence of the last ≤ 6 samples
above 0.4. -/
noncomputable def detectSustainedTone (pitchHistory : List PitchData) : Bool :=
  if pitchHistory.length < 4 then false
  else
    let recentPitches := pitchHistory.drop (pitchHistory.length - 6)
    decide ((0.4 : ℝ) < listMean (recentPitches.map (fun p => p.confidence)))

/-- `hasStrongVoiceFormants`: more than 40% of total spectral energy inside
the three formant bands. -/
noncomputable def hasStrongVoiceFormants (frequencyData : List ℝ) : Bool :=
  let binCount := frequencyData.length
  let binWidth := cfgSampleRate / (2 * binCount)
  let inFormant := fun (i : ℕ) =>
    let freq := (i : ℝ) * binWidth
    (300 ≤ freq ∧ freq ≤ 800) ∨ (1000 ≤ freq ∧ freq ≤ 1800) ∨
      (2000 ≤ freq ∧ freq ≤ 3400)
  let totalFormantEnergy := ∑ i ∈ Finset.range binCount,
    (if inFormant i then linMag (frequencyData.getD i 0) else 0)
  let totalEnergy := ∑ i ∈ Finset.range binCount, linMag (frequencyData.getD i 0)
  decide (0 < totalEnergy ∧ (0.4 : ℝ) < totalFormantEnergy / totalEnergy)

/-- `hasHighVibrato`, evaluated on the already-updated pitch history: false
below 6 samples, else mean absolute semitone change between consecutive
samples above 0.5.  (The JS truthiness guard `prev && curr` always holds
for object entries, so `count` is `length - 1`.) -/
noncomputable def hasHighVibrato (pitchHistory : List PitchData) : Bool :=
  if pitchHistory.length < 6 then false
  else
    let diffs := List.zipWith
      (fun curr prev => |12 * Real.logb 2 (curr.frequency / prev.frequency)|)
      pitchHistory.tail pitchHistory
    let avgChange := if 0 < diffs.length then diffs.sum / diffs.length else 0
    decide ((0.5 : ℝ) < avgChange)

/-- `isMusicalContent` of `audioProcessor.ts`: pushes the harmonic ratio,
the current pitch and the stability value into their bounded histories,
then combines the two hard voice filters with the 3-of-5 signal vote.
Thresholds are the `signalDetection` defaults
(`harmonicThreshold 0.18`, `pitchStability 0.35`, `minVocal 150`,
`maxVocal 1200`, `maxPiano 4186`). -/
noncomputable def isMusicalContent (s : ProcState) (timeData frequencyData : List ℝ)
    (pitch : PitchData) : Bool × ProcState :=
  let harmonicRatio := analyzeHarmonicContent frequencyData pitch.frequency
  let hh := pushCap 6 s.harmonicHistory harmonicRatio
  let ph := pushCap 12 s.pitchHistory pitch
  let stability := measurePitchStabilityVal ph
  let sh := pushCap 8 s.pitchStabilityHistory stability
  let spectralCentroid := calculateSpectralCentroid frequencyData
  let zeroCrossingRate := calculateZeroCrossingRate timeData
  let avgHarmonic := listMean hh
  let avgStability := listMean sh
  let conditions : List Bool :=
    [decide (0.18 < avgHarmonic), decide (0.35 < avgStability),
     decide (150 < spectralCentroid ∧ spectralCentroid < 4186),
     decide (zeroCrossingRate < 0.12), detectSustainedTone ph]
  let musical :=
    if hasStrongVoiceFormants frequencyData = true then false
    else if hasHighVibrato ph = true then false
    else if 150 < spectralCentroid ∧ spectralCentroid < 1200 ∧
      0.12 < zeroCrossingRate then false
    else decide (3 ≤ conditions.count true)
  (musical,
    { s with harmonicHistory := hh, pitchHistory := ph, pitchStabilityHistory := sh })

/-- `chromaClass` computed in `calculateChroma`: nearest MIDI number mod 12.
`Int.emod` always lands in `[0, 12)`, so the `0 <= chromaClass < 12` guard
of the source holds. -/
noncomputable def chromaClassOf (frequency : ℝ) : ℤ :=
  (round (12 * Real.logb 2 (frequency / 440) + 69)).emod 12

/-- One pitch-class bucket of the raw (pre-normalization) chroma
accumulation of `calculateChroma`: linear magnitudes of the bins from
index 1 whose frequency lies in `[80, 2000]` and whose magnitude is at
least 0.001 (`if (magnitude < 0.001) continue`). -/
noncomputable def chromaRaw (frequencyData : List ℝ) (c : ℕ) : ℝ :=
  ∑ i ∈ Finset.range frequencyData.length,
    (let frequency := (i : ℝ) * cfgSampleRate / (2 * frequencyData.length)
     let magnitude := linMag (frequencyData.getD i 0)
     if 1 ≤ i ∧ 80 ≤ frequency ∧ frequency ≤ 2000 ∧ (0.001 : ℝ) ≤ magnitude ∧
        chromaClassOf frequency = (c : ℤ) then magnitude else 0)

/-- The raw 12-bucket chroma accumulation of `calculateChroma`. -/
noncomputable def chromaRawList (frequencyData : List ℝ) : List ℝ :=
  (List.range 12).map (chromaRaw frequencyData)

/-- The sum-normalization step of `calculateChroma`: divide by the bucket
sum when it is positive, else leave the (all-zero) buckets unchanged. -/
noncomputable def chromaVector (frequencyData : List ℝ) : List ℝ :=
  let s := (chromaRawList frequencyData).sum
  if 0 < s then (chromaRawList frequencyData).map (fun x => x / s)
  else chromaRawList frequencyData

/-- One step of the `dominant` selection loop of `calculateChroma`: keep
the indexed value when it strictly exceeds the current maximum. -/
noncomputable def domStep (acc p : ℕ × ℝ) : ℕ × ℝ :=
  if acc.2 < p.2 then p else acc

/-- `calculateChroma` of `audioProcessor.ts`: normalized chroma vector with
the first index attaining the maximum value (the loop starts from
`dominant = 0`, `maxValue = chroma[0]` and updates on strict increase). -/
noncomputable def calculateChroma (frequencyData : List ℝ) : ChromaData :=
  let vector := chromaVector frequencyData
  let dom := vector.enum.foldl domStep (0, vector.getD 0 0)
  ⟨vector, dom.1, dom.2⟩

/-- The per-tick output record passed to the `onAudioData` callback. -/
structure TickOutput where
  state : AudioState
  pitch : Option PitchData
  chroma : Option ChromaData
  amplitude : ℝ
  noiseGateOpen : Bool
  harmonyAnalysis : Option HarmonyAnalysis

/-- The amplitude conversion of `processAudio`:
`amplitude > 0 ? 20 * Math.log10(amplitude) : -90`. -/
noncomputable def amplitudeDBOf (timeData : List ℝ) : ℝ :=
  let amplitude := calculateRMS timeData
  if 0 < amplitude then 20 * Real.logb 10 amplitude else -90

/-- One iteration of the `processAudio` loop in `start`, for an
already-captured time-domain buffer and dB spectrum, with `Date.now()`
passed as `now`.  (The `currentState` field mirror kept by the source is
reflected in `TickOutput.state`.) -/
noncomputable def processTick (s : ProcState) (now : ℝ) (timeData frequencyData : List ℝ) :
    TickOutput × ProcState :=
  let amplitudeDB := amplitudeDBOf timeData
  let s1 := { s with noiseFloor := updateNoiseFloor s.noiseFloor amplitudeDB }
  let gateOpen := applyNoiseGate s1.noiseFloor s1.thresholdMin amplitudeDB
  if gateOpen = true then
    let detectedPitches := detectMultiplePitches now timeData frequencyData
    if 0 < detectedPitches.length then
      let pitch := detectedPitches.getD 0 default
      let r1 := analyzeRhythm s1 now amplitudeDB
      let h1 := analyzeMelodyHarmony r1.2 now detectedPitches r1.1
      let m1 := isMusicalContent h1.2 timeData frequencyData pitch
      if m1.1 = true then
        (⟨.MUSICAL_INPUT, some pitch, some (calculateChroma frequencyData),
            amplitudeDB, gateOpen, some h1.1⟩, m1.2)
      else
        (⟨.NOISE_DETECTED, some pitch, none, amplitudeDB, gateOpen, some h1.1⟩, m1.2)
    else
      (⟨.NOISE_DETECTED, none, none, amplitudeDB, gateOpen, none⟩, s1)
  else
    (⟨.IDLE, none, none, amplitudeDB, gateOpen, none⟩, s1)

/-- Modelled from the spec: a frame with primary pitch candidate `pitch` is
musical iff none of the three voice-rejection filters triggers
(formant-band energy fraction, vibrato over the pitch history, speech-band
centroid with high zero-crossing rate) and at least 3 of the 5 signals
hold: smoothed harmonic ratio > 0.18, smoothed stability > 0.35, spectral
centroid strictly between 150 and 4186 Hz, zero-crossing rate < 0.12, and
sustain.  The filter and signal values are those computed by the source on
the updated histories. -/
noncomputable def musicalSpecD (s : ProcState) (timeData frequencyData : List ℝ)
    (pitch : PitchData) : Prop :=
  let hh := pushCap 6 s.harmonicHistory
    (analyzeHarmonicContent frequencyData pitch.frequency)
  let ph := pushCap 12 s.pitchHistory pitch
  let sh := pushCap 8 s.pitchStabilityHistory (measurePitchStabilityVal ph)
  let centroid := calculateSpectralCentroid frequencyData
  let zcr := calculateZeroCrossingRate timeData
  ¬ hasStrongVoiceFormants frequencyData = true ∧
  ¬ hasHighVibrato ph = true ∧
  ¬ (150 < centroid ∧ centroid < 1200 ∧ 0.12 < zcr) ∧
  3 ≤ ([decide ((0.18 : ℝ) < listMean hh), decide ((0.35 : ℝ) < listMean sh),
        decide (150 < centroid ∧ centroid < 4186), decide (zcr < 0.12),
        detectSustainedTone ph].count true)

/-- Modelled from the spec (with the bin-magnitude bound amended from
strictly-above to at-least 0.001, as the source keeps bins unless
`magnitude < 0.001`): bin `i` of the spectrum contributes to the chroma
accumulation. -/
noncomputable def contributingBin (fd : List ℝ) (i : ℕ) : Prop :=
  1 ≤ i ∧ i < fd.length ∧
  80 ≤ (i : ℝ) * cfgSampleRate / (2 * fd.length) ∧
  (i : ℝ) * cfgSampleRate / (2 * fd.length) ≤ 2000 ∧
  (0.001 : ℝ) ≤ linMag (fd.getD i 0)

end AudioProc

namespace KeyDetection

theorem mem_firstOccs : ∀ {l : List (String × Mode)} {a : String × Mode},
    a ∈ firstOccs l ↔ a ∈ l := by
  intro l
  induction l using firstOccs.induct with
  | case1 => simp [firstOccs]
  | case2 b l ih =>
    intro a
    rw [firstOccs]
    simp only [List.mem_cons]
    constructor
    · rintro (rfl | hmem)
      · exact Or.inl rfl
      · exact Or.inr ((List.mem_filter.mp (ih.mp hmem)).1)
    · rintro (rfl | hmem)
      · exact Or.inl rfl
      · by_cases hab : a = b
        · exact Or.inl hab
        · exact Or.inr (ih.mpr (List.mem_filter.mpr ⟨hmem, by simpa using hab⟩))

theorem accCount_pickStep_le (acc : Option ((String × Mode) × ℕ))
    (e : (String × Mode) × ℕ) : accCount acc ≤ accCount (pickStep acc e) := by
  unfold pickStep
  split
  · exact Nat.le_of_lt (by assumption)
  · exact Nat.le_refl _

theorem le_accCount_foldl (l : List ((String × Mode) × ℕ))
    (acc : Option ((String × Mode) × ℕ)) :
    accCount acc ≤ accCount (l.foldl pickStep acc) := by
  induction l generalizing acc with
  | nil => exact Nat.le_refl _
  | cons e rest ih =>
    exact Nat.le_trans (accCount_pickStep_le acc e) (ih (pickStep acc e))

theorem mem_le_accCount_foldl (l : List ((String × Mode) × ℕ))
    (acc : Option ((String × Mode) × ℕ)) :
    ∀ e ∈ l, e.2 ≤ accCount (l.foldl pickStep acc) := by
  induction l generalizing acc with
  | nil => intro e he; exact absurd he (List.not_mem_nil e)
  | cons f rest ih =>
    intro e he
    rcases List.mem_cons.mp he with rfl | hmem
    · refine Nat.le_trans ?_ (le_accCount_foldl rest (pickStep acc e))
      unfold pickStep
      split
      · exact Nat.le_refl _
      · exact Nat.le_of_not_lt (by assumption)
    · exact ih (pickStep acc f) e hmem

theorem foldl_pickStep_eq_some (l : List ((String × Mode) × ℕ))
    (acc : Option ((String × Mode) × ℕ)) (m : (String × Mode) × ℕ) :
    l.foldl pickStep acc = some m → acc = some m ∨ m ∈ l := by
  induction l generalizing acc with
  | nil => intro hfold; exact Or.inl hfold
  | cons f rest ih =>
    intro hfold
    rcases ih (pickStep acc f) hfold with hstep | hmem
    · unfold pickStep at hstep
      split at hstep
      · exact Or.inr (List.mem_cons.mpr (Or.inl (Option.some.inj hstep).symm))
      · exact Or.inl hstep
    · exact Or.inr (List.mem_cons.mpr (Or.inr hmem))

theorem countPair_pos_iff (h : List KeyDetectionResult) (p : String × Mode) :
    0 < countPair h p ↔ p ∈ h.map pairOf := by
  unfold countPair
  rw [List.countP_pos_iff]
  constructor
  · rintro ⟨r, hr, hp⟩
    exact List.mem_map.mpr ⟨r, hr, by simpa using hp⟩
  · intro hp
    rcases List.mem_map.mp hp with ⟨r, hr, hrp⟩
    exact ⟨r, hr, by simpa using hrp⟩

theorem pickMost_spec (h : List KeyDetectionResult) (hne : h ≠ []) :
    ∃ q : String × Mode, pickMost (keyCountEntries h) = some (q, countPair h q) ∧
      0 < countPair h q ∧ ∀ p, countPair h p ≤ countPair h q := by
  have hmapne : h.map pairOf ≠ [] := by
    simpa using hne
  obtain ⟨b, l, hbl⟩ := List.exists_cons_of_ne_nil hmapne
  have hbmem : b ∈ h.map pairOf := by rw [hbl]; exact List.mem_cons_self b l
  have hbfo : b ∈ firstOccs (h.map pairOf) := mem_firstOccs.mpr hbmem
  have hbent : (b, countPair h b) ∈ keyCountEntries h := by
    unfold keyCountEntries
    exact List.mem_map.mpr ⟨b, hbfo, rfl⟩
  have hbpos : 0 < countPair h b := (countPair_pos_iff h b).mpr hbmem
  have hle := mem_le_accCount_foldl (keyCountEntries h) none (b, countPair h b) hbent
  have hfpos : 0 < accCount ((keyCountEntries h).foldl pickStep none) :=
    Nat.lt_of_lt_of_le hbpos hle
  obtain ⟨m, hm⟩ : ∃ m, (keyCountEntries h).foldl pickStep none = some m := by
    cases hfold : (keyCountEntries h).foldl pickStep none with
    | none => rw [hfold] at hfpos; exact absurd hfpos (by simp [accCount])
    | some m => exact ⟨m, rfl⟩
  have hmmem : m ∈ keyCountEntries h := by
    rcases foldl_pickStep_eq_some (keyCountEntries h) none m hm with hcon | hmem
    · exact absurd hcon (by simp)
    · exact hmem
  obtain ⟨q, hqfo, hqm⟩ := List.mem_map.mp hmmem
  refine ⟨q, ?_, ?_, ?_⟩
  · rw [pickMost, hm, ← hqm]
  · have hqmem : q ∈ h.map pairOf := mem_firstOccs.mp hqfo
    exact (countPair_pos_iff h q).mpr hqmem
  · intro p
    rcases Nat.eq_zero_or_pos (countPair h p) with hz | hpos
    · rw [hz]; exact Nat.zero_le _
    · have hpmem : p ∈ h.map pairOf := (countPair_pos_iff h p).mp hpos
      have hpfo : p ∈ firstOccs (h.map pairOf) := mem_firstOccs.mpr hpmem
      have hpent : (p, countPair h p) ∈ keyCountEntries h :=
        List.mem_map.mpr ⟨p, hpfo, rfl⟩
      have := mem_le_accCount_foldl (keyCountEntries h) none (p, countPair h p) hpent
      rw [hm] at this
      have hacc : accCount (some m) = countPair h q := by
        rw [← hqm]; rfl
      simpa [hacc] using this

theorem addToHistory_getLast (h : List KeyDetectionResult) (r : KeyDetectionResult) :
    (addToHistory h r).getLast? = some r := by
  unfold addToHistory pushCap
  dsimp only
  split
  · rename_i hlen
    cases h with
    | nil => simp [historyLength] at hlen
    | cons a t => simp
  · simp

end KeyDetection

namespace KeyDetection

theorem getSmoothedResult_short {h : List KeyDetectionResult}
    {latest : KeyDetectionResult} (hl : h.getLast? = some latest)
    (hlen : h.length < 3) : getSmoothedResult h = some latest := by
  unfold getSmoothedResult
  rw [hl]
  dsimp only
  rw [if_pos hlen]

theorem getSmoothedResult_vote {h : List KeyDetectionResult}
    {latest : KeyDetectionResult} {q : String × Mode}
    (hl : h.getLast? = some latest) (hlen : ¬ h.length < 3)
    (hp : pickMost (keyCountEntries h) = some (q, countPair h q)) :
    getSmoothedResult h =
      some ⟨q.1, q.2,
        min 1 ((countPair h q : ℝ) / historyLength * latest.confidence),
        latest.chroma⟩ := by
  unfold getSmoothedResult
  rw [hl]
  dsimp only
  rw [if_neg hlen, hp]

/-- C1: whenever an estimate is accepted into the capacity-5 FIFO key
history, the smoothed output is: the entry itself when the history holds
fewer than 3 entries (fast-start); otherwise a result whose `(key, mode)`
pair occurs most often in the history and whose confidence is
`min(1, voteCount / 5 * latestConfidence)`; and after `reset()` the next
single accepted detection is returned unsmoothed. -/
theorem C1_key_estimator_smoothing (h : List KeyDetectionResult)
    (r : KeyDetectionResult) :
    ((addToHistory h r).length < 3 →
      getSmoothedResult (addToHistory h r) = some r) ∧
    (3 ≤ (addToHistory h r).length →
      ∃ res, getSmoothedResult (addToHistory h r) = some res ∧
        0 < countPair (addToHistory h r) (res.key, res.mode) ∧
        (∀ p, countPair (addToHistory h r) p ≤
          countPair (addToHistory h r) (res.key, res.mode)) ∧
        res.confidence =
          min 1 ((countPair (addToHistory h r) (res.key, res.mode) : ℝ) /
            historyLength * r.confidence)) ∧
    getSmoothedResult (addToHistory reset r) = some r := by
  have hlast := addToHistory_getLast h r
  refine ⟨fun hlen => getSmoothedResult_short hlast hlen, fun hlen => ?_, ?_⟩
  · have hne : addToHistory h r ≠ [] := by
      intro hcon
      rw [hcon] at hlen
      simp at hlen
    obtain ⟨q, hq, hqpos, hqmax⟩ := pickMost_spec (addToHistory h r) hne
    exact ⟨⟨q.1, q.2,
        min 1 ((countPair (addToHistory h r) q : ℝ) / historyLength * r.confidence),
        r.chroma⟩,
      getSmoothedResult_vote hlast (Nat.not_lt.mpr hlen) hq, hqpos, hqmax, rfl⟩
  · exact getSmoothedResult_short (addToHistory_getLast [] r)
      (by simp [addToHistory, pushCap, historyLength, reset])

theorem C1_key_estimator_smoothing_witness :
    getSmoothedResult (addToHistory reset
        (⟨"C", Mode.major, 0.5, ⟨[], 0, 0⟩⟩ : KeyDetectionResult)) =
      some ⟨"C", Mode.major, 0.5, ⟨[], 0, 0⟩⟩ ∧
    ∃ res, getSmoothedResult (addToHistory
        [⟨"C", Mode.major, 0.5, ⟨[], 0, 0⟩⟩, ⟨"D", Mode.minor, 0.5, ⟨[], 0, 0⟩⟩]
        ⟨"C", Mode.major, 0.5, ⟨[], 0, 0⟩⟩) = some res ∧
      0 < countPair (addToHistory
        [⟨"C", Mode.major, 0.5, ⟨[], 0, 0⟩⟩, ⟨"D", Mode.minor, 0.5, ⟨[], 0, 0⟩⟩]
        ⟨"C", Mode.major, 0.5, ⟨[], 0, 0⟩⟩) (res.key, res.mode) ∧
      (∀ p, countPair (addToHistory
        [⟨"C", Mode.major, 0.5, ⟨[], 0, 0⟩⟩, ⟨"D", Mode.minor, 0.5, ⟨[], 0, 0⟩⟩]
        ⟨"C", Mode.major, 0.5, ⟨[], 0, 0⟩⟩) p ≤ countPair (addToHistory
        [⟨"C", Mode.major, 0.5, ⟨[], 0, 0⟩⟩, ⟨"D", Mode.minor, 0.5, ⟨[], 0, 0⟩⟩]
        ⟨"C", Mode.major, 0.5, ⟨[], 0, 0⟩⟩) (res.key, res.mode)) ∧
      res.confidence = min 1 ((countPair (addToHistory
        [⟨"C", Mode.major, 0.5, ⟨[], 0, 0⟩⟩, ⟨"D", Mode.minor, 0.5, ⟨[], 0, 0⟩⟩]
        ⟨"C", Mode.major, 0.5, ⟨[], 0, 0⟩⟩) (res.key, res.mode) : ℝ) /
          historyLength * (0.5 : ℝ)) :=
  ⟨(C1_key_estimator_smoothing []
      ⟨"C", Mode.major, 0.5, ⟨[], 0, 0⟩⟩).2.2,
   (C1_key_estimator_smoothing
      [⟨"C", Mode.major, 0.5, ⟨[], 0, 0⟩⟩, ⟨"D", Mode.minor, 0.5, ⟨[], 0, 0⟩⟩]
      ⟨"C", Mode.major, 0.5, ⟨[], 0, 0⟩⟩).2.1
      (by simp [addToHistory, pushCap, historyLength])⟩

/-- C9: for a 12-element chroma vector, the key estimator produces no
estimate (null result, history unchanged) when the vector sum is below
0.01 or the normalized best-correlation confidence is below 0.05;
otherwise the new estimate is pushed into the history. -/
theorem C9_detectKey_rejection (hist : List KeyDetectionResult)
    (c : ChromaData) (h12 : c.vector.length = 12) :
    (c.vector.sum < 0.01 ∨ normalizeScore (bestKeyOf c.vector).2 < 0.05 →
      detectKey hist c = (none, hist)) ∧
    (¬ c.vector.sum < 0.01 → ¬ normalizeScore (bestKeyOf c.vector).2 < 0.05 →
      detectKey hist c =
        (getSmoothedResult (addToHistory hist
            ⟨(bestKeyOf c.vector).1.1, (bestKeyOf c.vector).1.2,
              normalizeScore (bestKeyOf c.vector).2, c⟩),
          addToHistory hist
            ⟨(bestKeyOf c.vector).1.1, (bestKeyOf c.vector).1.2,
              normalizeScore (bestKeyOf c.vector).2, c⟩)) := by
  unfold detectKey
  rw [if_neg (by simp [h12])]
  constructor
  · rintro (hsum | hconf)
    · rw [if_pos hsum]
    · by_cases hsum2 : c.vector.sum < 0.01
      · rw [if_pos hsum2]
      · rw [if_neg hsum2]
        dsimp only
        rw [if_pos (by simpa [confidenceThreshold] using hconf)]
  · intro hsum hconf
    rw [if_neg hsum]
    dsimp only
    rw [if_neg (by simpa [confidenceThreshold] using hconf)]

theorem C9_detectKey_rejection_witness :
    detectKey [] ⟨List.replicate 12 0, 0, 0⟩ = (none, []) :=
  (C9_detectKey_rejection [] ⟨List.replicate 12 0, 0, 0⟩ (by simp)).1
    (Or.inl (by norm_num [List.sum_replicate]))

end KeyDetection

namespace AudioProc

theorem analyzeRhythm_gateFields (s : ProcState) (now amplitudeDB : ℝ) :
    (analyzeRhythm s now amplitudeDB).2.noiseFloor = s.noiseFloor ∧
    (analyzeRhythm s now amplitudeDB).2.thresholdMin = s.thresholdMin := by
  unfold analyzeRhythm
  exact ⟨rfl, rfl⟩

theorem analyzeMelodyHarmony_gateFields (s : ProcState) (now : ℝ)
    (pitches : List PitchData) (rhythmData : RhythmData) :
    (analyzeMelodyHarmony s now pitches rhythmData).2.noiseFloor = s.noiseFloor ∧
    (analyzeMelodyHarmony s now pitches rhythmData).2.thresholdMin = s.thresholdMin := by
  unfold analyzeMelodyHarmony
  dsimp only
  split
  · exact ⟨rfl, rfl⟩
  · split
    · split
      · exact ⟨rfl, rfl⟩
      · split
        · exact ⟨rfl, rfl⟩
        · exact ⟨rfl, rfl⟩
    · split
      · split
        · exact ⟨rfl, rfl⟩
        · split
          · exact ⟨rfl, rfl⟩
          · exact ⟨rfl, rfl⟩
      · split
        · exact ⟨rfl, rfl⟩
        · exact ⟨rfl, rfl⟩

theorem isMusicalContent_gateFields (s : ProcState) (timeData frequencyData : List ℝ)
    (pitch : PitchData) :
    (isMusicalContent s timeData frequencyData pitch).2.noiseFloor = s.noiseFloor ∧
    (isMusicalContent s timeData frequencyData pitch).2.thresholdMin = s.thresholdMin := by
  unfold isMusicalContent
  exact ⟨rfl, rfl⟩

theorem processTick_gateFields (s : ProcState) (now : ℝ)
    (timeData frequencyData : List ℝ) :
    (processTick s now timeData frequencyData).2.noiseFloor =
      updateNoiseFloor s.noiseFloor (amplitudeDBOf timeData) ∧
    (processTick s now timeData frequencyData).1.amplitude = amplitudeDBOf timeData ∧
    (processTick s now timeData frequencyData).1.noiseGateOpen =
      applyNoiseGate (updateNoiseFloor s.noiseFloor (amplitudeDBOf timeData))
        s.thresholdMin (amplitudeDBOf timeData) := by
  unfold processTick
  dsimp only
  split
  · split
    · split
      · refine ⟨?_, rfl, rfl⟩
        rw [(isMusicalContent_gateFields _ _ _ _).1,
          (analyzeMelodyHarmony_gateFields _ _ _ _).1,
          (analyzeRhythm_gateFields _ _ _).1]
      · refine ⟨?_, rfl, rfl⟩
        rw [(isMusicalContent_gateFields _ _ _ _).1,
          (analyzeMelodyHarmony_gateFields _ _ _ _).1,
          (analyzeRhythm_gateFields _ _ _).1]
    · exact ⟨rfl, rfl, rfl⟩
  · exact ⟨rfl, rfl, rfl⟩

/-- C6: on every tick, open or closed, the noise floor is updated by the
exponential moving average `noiseFloor * (1 - 0.001) + amplitudeDB * 0.001`
with `amplitudeDB = 20 * log10(rms)` (−90 for a silent frame), and the gate
is open for the tick iff `amplitudeDB > max(noiseFloor + 8, thresholdMin)`
(updated floor); `thresholdMin` defaults to −65 dB. -/
theorem C6_noise_floor_update_and_gate (s : ProcState) (now : ℝ)
    (timeData frequencyData : List ℝ) :
    (processTick s now timeData frequencyData).2.noiseFloor =
      s.noiseFloor * (1 - 0.001) + amplitudeDBOf timeData * 0.001 ∧
    ((processTick s now timeData frequencyData).1.noiseGateOpen = true ↔
      max ((processTick s now timeData frequencyData).2.noiseFloor + 8)
        s.thresholdMin < amplitudeDBOf timeData) ∧
    (processTick s now timeData frequencyData).1.amplitude =
      (if 0 < calculateRMS timeData then
        20 * Real.logb 10 (calculateRMS timeData) else -90) ∧
    initialState.thresholdMin = -65 := by
  obtain ⟨h1, h2, h3⟩ := processTick_gateFields s now timeData frequencyData
  refine ⟨by rw [h1]; rfl, ?_, by rw [h2]; rfl, rfl⟩
  rw [h3, h1]
  unfold applyNoiseGate updateNoiseFloor
  exact decide_eq_true_iff

end AudioProc

namespace AudioProc

/-- C2: for every frame with a primary pitch candidate, the frame is
classified as musical iff none of the three voice-rejection filters
triggers and at least 3 of the 5 signals (smoothed harmonic ratio > 0.18,
smoothed stability > 0.35, centroid strictly in (150, 4186) Hz,
zero-crossing rate < 0.12, sustain) hold. -/
theorem C2_musical_classification (s : ProcState) (timeData frequencyData : List ℝ)
    (pitch : PitchData) :
    (isMusicalContent s timeData frequencyData pitch).1 = true ↔
      musicalSpecD s timeData frequencyData pitch := by
  unfold isMusicalContent musicalSpecD
  dsimp only
  by_cases h1 : hasStrongVoiceFormants frequencyData = true
  · simp [h1]
  · rw [if_neg h1]
    by_cases h2 : hasHighVibrato (pushCap 12 s.pitchHistory pitch) = true
    · simp [h1, h2]
    · rw [if_neg h2]
      by_cases h3 : 150 < calculateSpectralCentroid frequencyData ∧
          calculateSpectralCentroid frequencyData < 1200 ∧
          0.12 < calculateZeroCrossingRate timeData
      · simp [h1, h2, h3]
      · rw [if_neg h3]
        simp [h1, h2, h3]

end AudioProc

namespace AudioProc

theorem detectSpectralPeaks_conf (now : ℝ) (frequencyData : List ℝ) :
    ∀ p ∈ detectSpectralPeaks now frequencyData, (0.3 : ℝ) < p.confidence := by
  intro p hp
  unfold detectSpectralPeaks at hp
  dsimp only at hp
  have hp2 := List.take_subset 8 _ hp
  rw [(List.mergeSort_perm _ _).mem_iff] at hp2
  obtain ⟨i, _, hf⟩ := List.mem_filterMap.mp hp2
  split at hf
  · exact absurd hf (by simp)
  · split at hf
    · rename_i hmax
      split at hf
      · rename_i hconf
        obtain ⟨hfreq, hcv, hts⟩ := PitchData.mk.injEq .. ▸ Option.some.inj hf
        rw [← hcv]
        have hprom : 0 < frequencyData.getD i 0 -
            max (frequencyData.getD (i - 1) 0) (frequencyData.getD (i + 1) 0) := by
          have := max_lt hmax.1 hmax.2.1
          linarith
        refine lt_min (by norm_num) (lt_of_lt_of_le ?_ (le_max_right 0 _))
        linarith
      · exact absurd hf (by simp)
    · exact absurd hf (by simp)

theorem mergePitches_eq_spec (mono : List PitchData) (peaks : List PitchData)
    (hconf : ∀ p ∈ peaks, (0.3 : ℝ) < p.confidence) :
    mergePitches mono peaks = specMergePitches mono peaks := by
  induction peaks generalizing mono with
  | nil => rfl
  | cons p rest ih =>
    have hstep : (if (mono.any
          (fun ex => decide (|ex.frequency - p.frequency| < 10))) = false ∧
          (0.3 : ℝ) < p.confidence then mono ++ [p] else mono) =
        (if (mono.any
          (fun ex => decide (|ex.frequency - p.frequency| < 10))) = false
          then mono ++ [p] else mono) := by
      rw [if_congr (and_iff_left (hconf p (List.mem_cons_self p rest))) rfl rfl]
    show List.foldl _ _ (p :: rest) = List.foldl _ _ (p :: rest)
    rw [List.foldl_cons, List.foldl_cons]
    dsimp only
    rw [hstep]
    exact ih _ (fun q hq => hconf q (List.mem_cons_of_mem p hq))

theorem mem_specMergePitches_acc (peaks : List PitchData) (acc : List PitchData) :
    ∀ q ∈ acc, q ∈ specMergePitches acc peaks := by
  induction peaks generalizing acc with
  | nil => exact fun q hq => hq
  | cons f rest ih =>
    intro q hq
    show q ∈ List.foldl _ _ (f :: rest)
    rw [List.foldl_cons]
    refine ih _ q ?_
    dsimp only
    split
    · exact List.mem_append_left _ hq
    · exact hq

theorem specMergePitches_covers (peaks : List PitchData) (acc : List PitchData) :
    ∀ p ∈ peaks, ∃ q ∈ specMergePitches acc peaks,
      |q.frequency - p.frequency| < 10 := by
  induction peaks generalizing acc with
  | nil => intro p hp; exact absurd hp (List.not_mem_nil p)
  | cons f rest ih =>
    intro p hp
    rcases List.mem_cons.mp hp with rfl | hmem
    · by_cases hdup : (acc.any
          (fun ex => decide (|ex.frequency - p.frequency| < 10))) = true
      · obtain ⟨ex, hex, hexd⟩ := List.any_eq_true.mp hdup
        refine ⟨ex, ?_, of_decide_eq_true hexd⟩
        show ex ∈ List.foldl _ _ (p :: rest)
        rw [List.foldl_cons]
        refine mem_specMergePitches_acc rest _ ex ?_
        dsimp only
        rw [if_neg (by simp [hdup])]
        exact hex
      · refine ⟨p, ?_, by simp⟩
        show p ∈ List.foldl _ _ (p :: rest)
        rw [List.foldl_cons]
        refine mem_specMergePitches_acc rest _ p ?_
        dsimp only
        rw [if_pos (Bool.eq_false_iff.mpr hdup)]
        exact List.mem_append_right _ (List.mem_cons_self p [])
    · exact ih _ p hmem

/-- C3: the ranked candidate list equals the spec-described construction:
the monophonic estimate merged with the kept spectral peaks dropping only
peaks within 10 Hz of an already-included frequency (every kept peak has
confidence above 2/3 because a strict local maximum has positive
prominence, so the source's additional `confidence > 0.3` test never
drops anything), sorted by confidence descending and capped at 6; and
every kept spectral peak is within 10 Hz of some member of the merged
list (itself, when no already-included frequency is within 10 Hz). -/
theorem C3_ranked_candidate_merge (now : ℝ) (timeData frequencyData : List ℝ) :
    detectMultiplePitches now timeData frequencyData =
      ((specMergePitches
          (match detectPitch now timeData with | none => [] | some p => [p])
          (detectSpectralPeaks now frequencyData)).mergeSort
        (fun a b => decide (b.confidence ≤ a.confidence))).take 6 ∧
    ∀ p ∈ detectSpectralPeaks now frequencyData,
      ∃ q ∈ specMergePitches
          (match detectPitch now timeData with | none => [] | some p => [p])
          (detectSpectralPeaks now frequencyData),
        |q.frequency - p.frequency| < 10 := by
  constructor
  · unfold detectMultiplePitches
    dsimp only
    rw [mergePitches_eq_spec _ _ (detectSpectralPeaks_conf now frequencyData)]
  · intro p hp
    exact specMergePitches_covers _ _ p hp

end AudioProc

namespace AudioProc

/-- C10: in polyphonic mode, every non-empty pitch-candidate list yields
`harmonyType = chord` with empty `melodyNotes` (never `none`); and when
fewer than 2 candidates have confidence above 0.05 and the cached chord
set is absent or older than 50 ms, `chordNotes` is empty while the type is
still `chord`. -/
theorem C10_polyphonic_chord_mode (s : ProcState) (now : ℝ)
    (pitches : List PitchData) (rhythmData : RhythmData)
    (hpoly : s.polyphonicMode = true) (hne : pitches ≠ []) :
    (analyzeMelodyHarmony s now pitches rhythmData).1.harmonyType = .chord ∧
    (analyzeMelodyHarmony s now pitches rhythmData).1.melodyNotes = [] ∧
    (((pitches.map toNoteD).filter
        (fun n => decide ((0.05 : ℝ) < n.confidence))).length < 2 →
      s.lastChordNotes = [] ∨ 50 < now - s.lastChordTime →
      (analyzeMelodyHarmony s now pitches rhythmData).1.chordNotes = []) := by
  unfold analyzeMelodyHarmony
  dsimp only
  rw [if_neg (fun h => hne (List.length_eq_zero.mp h)), if_pos hpoly]
  by_cases hstrong : 2 ≤ ((pitches.map toNoteD).filter
      (fun n => decide ((0.05 : ℝ) < n.confidence))).length
  · rw [if_pos hstrong]
    exact ⟨rfl, rfl, fun hlt _ => absurd hstrong (by omega)⟩
  · rw [if_neg hstrong]
    split
    · rename_i hmem
      refine ⟨rfl, rfl, fun _ hc => ?_⟩
      rcases hc with hnil | hold
      · rw [hnil] at hmem
        exact absurd hmem.1 (by simp)
      · linarith [hmem.2]
    · exact ⟨rfl, rfl, fun _ _ => rfl⟩

theorem C10_polyphonic_chord_mode_witness :
    (analyzeMelodyHarmony
        ⟨-60, -65, [], [], [], [], [], 0, [], true, none, 0, [], 0, [], []⟩ 0
        [⟨440, 0.01, 0⟩] ⟨120, 0, "4/4", 1, false⟩).1.harmonyType = .chord ∧
    (analyzeMelodyHarmony
        ⟨-60, -65, [], [], [], [], [], 0, [], true, none, 0, [], 0, [], []⟩ 0
        [⟨440, 0.01, 0⟩] ⟨120, 0, "4/4", 1, false⟩).1.melodyNotes = [] ∧
    (analyzeMelodyHarmony
        ⟨-60, -65, [], [], [], [], [], 0, [], true, none, 0, [], 0, [], []⟩ 0
        [⟨440, 0.01, 0⟩] ⟨120, 0, "4/4", 1, false⟩).1.chordNotes = [] := by
  have H := C10_polyphonic_chord_mode
    ⟨-60, -65, [], [], [], [], [], 0, [], true, none, 0, [], 0, [], []⟩ 0
    [⟨440, 0.01, 0⟩] ⟨120, 0, "4/4", 1, false⟩ rfl (by simp)
  refine ⟨H.1, H.2.1, H.2.2 ?_ (Or.inl rfl)⟩
  have hdec : (decide ((0.05 : ℝ) < (toNoteD ⟨440, 0.01, 0⟩).confidence)) = false :=
    decide_eq_false (by norm_num [toNoteD])
  simp [List.filter_cons, hdec]

end AudioProc

namespace AudioProc

/-- C8 (amended): with fewer than 4 stored beat timestamps the output tempo
is the default 120; with 4 or more, `round(60000 / meanInterval)` is pushed
into the capacity-5 tempo-history FIFO and the output tempo is the
*rounded* mean of that history clamped to `[60, 200]`; four registered
beats spaced exactly 500 ms apart produce a tempo of 120 BPM. -/
theorem C8_rhythm_tempo (s : ProcState) (now amplitudeDB : ℝ) :
    ((analyzeRhythm s now amplitudeDB).2.beatHistory.length < 4 →
      (analyzeRhythm s now amplitudeDB).1.tempo = 120 ∧
      (analyzeRhythm s now amplitudeDB).2.tempoHistory = s.tempoHistory) ∧
    (4 ≤ (analyzeRhythm s now amplitudeDB).2.beatHistory.length →
      (analyzeRhythm s now amplitudeDB).2.tempoHistory =
        pushCap 5 s.tempoHistory (round (60000 / listMean
          (beatIntervals (analyzeRhythm s now amplitudeDB).2.beatHistory))) ∧
      (analyzeRhythm s now amplitudeDB).1.tempo =
        max 60 (min 200
          ((round (listMean (((analyzeRhythm s now amplitudeDB).2.tempoHistory).map
            (fun z => (z : ℝ)))) : ℤ) : ℝ))) ∧
    (analyzeRhythm ⟨-60, -65, [], [], [], [], [0, 500, 1000, 1500], 1500, [],
        false, none, 0, [], 0, [], []⟩ 1600 (-50)).1.tempo = 120 := by
  refine ⟨?_, ?_, ?_⟩
  · unfold analyzeRhythm
    dsimp only
    split
    · intro hlen
      rw [if_neg (by omega)]
      exact ⟨by norm_num, rfl⟩
    · intro hlen
      rw [if_neg (by omega)]
      exact ⟨by norm_num, rfl⟩
  · unfold analyzeRhythm
    dsimp only
    split
    · intro hlen
      rw [if_pos hlen]
      exact ⟨rfl, rfl⟩
    · intro hlen
      rw [if_pos hlen]
      exact ⟨rfl, rfl⟩
  · norm_num [analyzeRhythm, detectOnset, beatIntervals, pushCap, listMean, round_eq]

theorem C8_rhythm_tempo_witness :
    ((analyzeRhythm ⟨-60, -65, [], [], [], [], [0, 500, 1000, 1500], 1500, [],
        false, none, 0, [], 0, [], []⟩ 1600 (-50)).2.tempoHistory =
      pushCap 5 [] (round (60000 / listMean (beatIntervals
        (analyzeRhythm ⟨-60, -65, [], [], [], [], [0, 500, 1000, 1500], 1500, [],
          false, none, 0, [], 0, [], []⟩ 1600 (-50)).2.beatHistory))) ∧
      (analyzeRhythm ⟨-60, -65, [], [], [], [], [0, 500, 1000, 1500], 1500, [],
          false, none, 0, [], 0, [], []⟩ 1600 (-50)).1.tempo =
        max 60 (min 200
          ((round (listMean (((analyzeRhythm ⟨-60, -65, [], [], [], [],
              [0, 500, 1000, 1500], 1500, [], false, none, 0, [], 0, [], []⟩
              1600 (-50)).2.tempoHistory).map (fun z => (z : ℝ)))) : ℤ) : ℝ))) ∧
    (analyzeRhythm ⟨-60, -65, [], [], [], [], [0, 1000], 1000, [],
        false, none, 0, [], 0, [], []⟩ 1100 (-50)).1.tempo = 120 := by
  constructor
  · exact (C8_rhythm_tempo ⟨-60, -65, [], [], [], [], [0, 500, 1000, 1500], 1500,
      [], false, none, 0, [], 0, [], []⟩ 1600 (-50)).2.1
      (by norm_num [analyzeRhythm, detectOnset, pushCap])
  · exact ((C8_rhythm_tempo ⟨-60, -65, [], [], [], [], [0, 1000], 1000, [],
      false, none, 0, [], 0, [], []⟩ 1100 (-50)).1
      (by norm_num [analyzeRhythm, detectOnset, pushCap])).1

theorem C8_rhythm_tempo_counterexample :
    (analyzeRhythm ⟨-60, -65, [], [], [], [], [0, 700, 1400, 2100], 2100, [],
        false, none, 0, [], 0, [], []⟩ 2200 (-50)).1.tempo ≠
      max 60 (min 200 (60000 / listMean (beatIntervals
        (analyzeRhythm ⟨-60, -65, [], [], [], [], [0, 700, 1400, 2100], 2100, [],
          false, none, 0, [], 0, [], []⟩ 2200 (-50)).2.beatHistory))) := by
  norm_num [analyzeRhythm, detectOnset, beatIntervals, pushCap, listMean, round_eq]

end AudioProc

namespace AudioProc

theorem round_twelve_logb (r : ℝ) (k : ℤ) (hr : 0 < r)
    (h1 : (2:ℝ)^(2*k-1) ≤ r^(24:ℕ)) (h2 : r^(24:ℕ) < (2:ℝ)^(2*k+1)) :
    round (12 * Real.logb 2 r) = k := by
  have hlogpow : Real.logb 2 (r ^ (24:ℕ)) = 24 * Real.logb 2 r := by
    rw [Real.logb_pow]
    norm_num
  have hlb : ((2*k - 1 : ℤ) : ℝ) ≤ Real.logb 2 (r ^ (24:ℕ)) := by
    rw [← Real.rpow_intCast 2 (2*k-1)] at h1
    exact (Real.le_logb_iff_rpow_le (by norm_num) (pow_pos hr 24)).mpr h1
  have hub : Real.logb 2 (r ^ (24:ℕ)) < ((2*k + 1 : ℤ) : ℝ) := by
    rw [← Real.rpow_intCast 2 (2*k+1)] at h2
    exact (Real.logb_lt_iff_lt_rpow (by norm_num) (pow_pos hr 24)).mpr h2
  rw [hlogpow] at hlb hub
  push_cast at hlb hub
  rw [round_eq, Int.floor_eq_iff]
  constructor
  · linarith
  · linarith

theorem round_midi_logb (r : ℝ) (k : ℤ) (hr : 0 < r)
    (h1 : (2:ℝ)^(2*(k-69)-1) ≤ r^(24:ℕ)) (h2 : r^(24:ℕ) < (2:ℝ)^(2*(k-69)+1)) :
    round (12 * Real.logb 2 r + 69) = k := by
  have h69 : (69:ℝ) = ((69:ℤ):ℝ) := by norm_num
  rw [h69, round_add_int, round_twelve_logb r (k - 69) hr h1 h2]
  omega

theorem freqToNote_C4 : frequencyToNote (261.63:ℝ) = ("C", 4) := by
  have hmidi : round (12 * Real.logb 2 ((261.63:ℝ) / 440) + 69) = 60 :=
    round_midi_logb _ 60 (by norm_num) (by norm_num) (by norm_num)
  unfold frequencyToNote
  dsimp only
  rw [hmidi]
  decide

theorem freqToNote_E4 : frequencyToNote (329.63:ℝ) = ("E", 4) := by
  have hmidi : round (12 * Real.logb 2 ((329.63:ℝ) / 440) + 69) = 64 :=
    round_midi_logb _ 64 (by norm_num) (by norm_num) (by norm_num)
  unfold frequencyToNote
  dsimp only
  rw [hmidi]
  decide

theorem freqToNote_G4 : frequencyToNote (392.00:ℝ) = ("G", 4) := by
  have hmidi : round (12 * Real.logb 2 ((392.00:ℝ) / 440) + 69) = 67 :=
    round_midi_logb _ 67 (by norm_num) (by norm_num) (by norm_num)
  unfold frequencyToNote
  dsimp only
  rw [hmidi]
  decide

theorem semitones_C4_E4 : calculateSemitones (261.63:ℝ) 329.63 = 4 := by
  unfold calculateSemitones
  exact round_twelve_logb _ 4 (by norm_num) (by norm_num) (by norm_num)

theorem semitones_E4_G4 : calculateSemitones (329.63:ℝ) 392.00 = 3 := by
  unfold calculateSemitones
  exact round_twelve_logb _ 3 (by norm_num) (by norm_num) (by norm_num)

/-- C4: in default (non-polyphonic) mode, for two or more candidates the
frequency-sorted list is tested on consecutive semitone intervals: some
interval in `{3,4,5,7}` with at least 3 candidates makes the whole set
`chordNotes` (`harmonyType = chord`, no melody); otherwise the highest
candidate is the single melody note, the rest `chordNotes`
(`harmonyType = both`).  Tones at 261.63/329.63/392.00 Hz give the chord
`{C, E, G}` with no melody. -/
theorem C4_chord_vs_melody (s : ProcState) (now : ℝ) (pitches : List PitchData)
    (rhythmData : RhythmData) (hpoly : s.polyphonicMode = false)
    (h2 : 2 ≤ pitches.length) :
    ((((pitches.map toNoteD).mergeSort
          (fun a b => decide (a.frequency ≤ b.frequency))).tail.zipWith
        (fun cur prev => calculateSemitones prev.frequency cur.frequency)
        ((pitches.map toNoteD).mergeSort
          (fun a b => decide (a.frequency ≤ b.frequency)))).any
        (fun iv => decide ((3 ≤ iv ∧ iv ≤ 4) ∨ iv = 5 ∨ iv = 7)) = true ∧
        3 ≤ pitches.length →
      (analyzeMelodyHarmony s now pitches rhythmData).1 =
        ⟨[], ((pitches.map toNoteD).mergeSort
            (fun a b => decide (a.frequency ≤ b.frequency))).map (fun n => n.note),
          rhythmData, .chord⟩) ∧
    (¬ ((((pitches.map toNoteD).mergeSort
          (fun a b => decide (a.frequency ≤ b.frequency))).tail.zipWith
        (fun cur prev => calculateSemitones prev.frequency cur.frequency)
        ((pitches.map toNoteD).mergeSort
          (fun a b => decide (a.frequency ≤ b.frequency)))).any
        (fun iv => decide ((3 ≤ iv ∧ iv ≤ 4) ∨ iv = 5 ∨ iv = 7)) = true ∧
        3 ≤ pitches.length) →
      (analyzeMelodyHarmony s now pitches rhythmData).1 =
        ⟨[((((pitches.map toNoteD).mergeSort
              (fun a b => decide (a.frequency ≤ b.frequency))).getLastD default).note)],
          (((pitches.map toNoteD).mergeSort
            (fun a b => decide (a.frequency ≤ b.frequency))).dropLast).map
              (fun n => n.note),
          rhythmData, .both⟩) ∧
    (analyzeMelodyHarmony
        ⟨-60, -65, [], [], [], [], [], 0, [], false, none, 0, [], 0, [], []⟩ 0
        [⟨261.63, 0.9, 0⟩, ⟨329.63, 0.9, 0⟩, ⟨392.00, 0.9, 0⟩]
        ⟨120, 0, "4/4", 1, false⟩).1 =
      ⟨[], ["C", "E", "G"], ⟨120, 0, "4/4", 1, false⟩, .chord⟩ := by
  refine ⟨?_, ?_, ?_⟩
  · intro hcond
    unfold analyzeMelodyHarmony
    dsimp only
    rw [if_neg (by omega), if_neg (by simp [hpoly]),
      if_neg (by rw [List.length_map]; omega),
      if_pos (by rw [List.length_map]; exact ⟨hcond.1, hcond.2⟩)]
  · intro hcond
    unfold analyzeMelodyHarmony
    dsimp only
    rw [if_neg (by omega), if_neg (by simp [hpoly]),
      if_neg (by rw [List.length_map]; omega),
      if_neg (by rw [List.length_map]; exact hcond)]
  · have hsorted : ([⟨261.63, 0.9, 0⟩, ⟨329.63, 0.9, 0⟩,
        (⟨392.00, 0.9, 0⟩ : PitchData)].map toNoteD).mergeSort
          (fun a b => decide (a.frequency ≤ b.frequency)) =
        [⟨261.63, 0.9, 0⟩, ⟨329.63, 0.9, 0⟩,
          (⟨392.00, 0.9, 0⟩ : PitchData)].map toNoteD := by
      apply List.mergeSort_of_sorted
      simp only [List.map_cons, List.map_nil, List.pairwise_cons, List.mem_cons,
        List.mem_singleton, List.not_mem_nil, List.Pairwise.nil, decide_eq_true_eq]
      refine ⟨?_, ?_, fun a ha => ha.elim, trivial⟩
      · rintro b (rfl | rfl | h)
        · norm_num [toNoteD]
        · norm_num [toNoteD]
        · exact h.elim
      · rintro b (rfl | h)
        · norm_num [toNoteD]
        · exact h.elim
    unfold analyzeMelodyHarmony
    dsimp only
    rw [if_neg (by simp), if_neg (by simp), if_neg (by simp), hsorted]
    rw [if_pos ?hcond]
    case hcond =>
      constructor
      · simp only [List.map_cons, List.map_nil, List.tail_cons, List.zipWith,
          List.any_cons, List.any_nil]
        have hi1 : calculateSemitones (toNoteD ⟨261.63, 0.9, 0⟩).frequency
            (toNoteD ⟨329.63, 0.9, 0⟩).frequency = 4 := semitones_C4_E4
        rw [hi1]
        simp
      · simp
    simp only [List.map_cons, List.map_nil]
    have h1 : (toNoteD ⟨261.63, 0.9, 0⟩).note = "C" := by
      simp [toNoteD, freqToNote_C4]
    have h2 : (toNoteD ⟨329.63, 0.9, 0⟩).note = "E" := by
      simp [toNoteD, freqToNote_E4]
    have h3 : (toNoteD ⟨392.00, 0.9, 0⟩).note = "G" := by
      simp [toNoteD, freqToNote_G4]
    rw [h1, h2, h3]

end AudioProc

namespace AudioProc

theorem C4_chord_vs_melody_witness :
    (analyzeMelodyHarmony
        ⟨-60, -65, [], [], [], [], [], 0, [], false, none, 0, [], 0, [], []⟩ 0
        [⟨261.63, 0.9, 0⟩, ⟨329.63, 0.9, 0⟩, ⟨392.00, 0.9, 0⟩]
        ⟨120, 0, "4/4", 1, false⟩).1 =
      ⟨[], ["C", "E", "G"], ⟨120, 0, "4/4", 1, false⟩, .chord⟩ :=
  (C4_chord_vs_melody
      ⟨-60, -65, [], [], [], [], [], 0, [], false, none, 0, [], 0, [], []⟩ 0
      [⟨261.63, 0.9, 0⟩, ⟨329.63, 0.9, 0⟩, ⟨392.00, 0.9, 0⟩]
      ⟨120, 0, "4/4", 1, false⟩ rfl (by norm_num)).2.2

end AudioProc

namespace AudioProc

theorem linMag_pos (db : ℝ) : 0 < linMag db :=
  Real.rpow_pos_of_pos (by norm_num) _

theorem linMag_neg60 : linMag (-60) = 1 / 1000 := by
  unfold linMag
  rw [show ((-60 : ℝ) / 20) = ((-3 : ℤ) : ℝ) by norm_num, Real.rpow_intCast]
  norm_num

theorem chromaRaw_nonneg (fd : List ℝ) (c : ℕ) : 0 ≤ chromaRaw fd c := by
  unfold chromaRaw
  refine Finset.sum_nonneg (fun i _ => ?_)
  dsimp only
  split
  · exact (linMag_pos _).le
  · exact le_refl 0

theorem chromaRawList_nonneg (fd : List ℝ) : ∀ x ∈ chromaRawList fd, 0 ≤ x := by
  intro x hx
  obtain ⟨c, _, rfl⟩ := List.mem_map.mp hx
  exact chromaRaw_nonneg fd c

theorem exists_pos_of_sum_pos {l : List ℝ} (hn : ∀ x ∈ l, 0 ≤ x)
    (h : 0 < l.sum) : ∃ x ∈ l, 0 < x := by
  by_contra hc
  push_neg at hc
  rw [List.sum_eq_zero (fun x hx => le_antisymm (hc x hx) (hn x hx))] at h
  exact lt_irrefl 0 h

theorem chromaSum_pos_iff (fd : List ℝ) :
    0 < (chromaRawList fd).sum ↔ ∃ i, contributingBin fd i := by
  constructor
  · intro hs
    obtain ⟨x, hx, hxpos⟩ := exists_pos_of_sum_pos (chromaRawList_nonneg fd) hs
    obtain ⟨c, _, rfl⟩ := List.mem_map.mp hx
    unfold chromaRaw at hxpos
    by_contra hno
    push_neg at hno
    rw [Finset.sum_eq_zero (fun i hi => ?_)] at hxpos
    · exact lt_irrefl 0 hxpos
    dsimp only
    rw [if_neg (fun hcond => hno i
      ⟨hcond.1, Finset.mem_range.mp hi, hcond.2.1, hcond.2.2.1, hcond.2.2.2.1⟩)]
  · rintro ⟨i, h1, h2, h3, h4, h5⟩
    have hcnn : (0 : ℤ) ≤ chromaClassOf ((i : ℝ) * cfgSampleRate / (2 * fd.length)) :=
      Int.emod_nonneg _ (by norm_num)
    have hclt : chromaClassOf ((i : ℝ) * cfgSampleRate / (2 * fd.length)) < 12 :=
      Int.emod_lt_of_pos _ (by norm_num)
    have hterm : 0 < chromaRaw fd
        (chromaClassOf ((i : ℝ) * cfgSampleRate / (2 * fd.length))).toNat := by
      unfold chromaRaw
      refine lt_of_lt_of_le ?_
        (Finset.single_le_sum (f := fun (j : ℕ) =>
          (let frequency := (j : ℝ) * cfgSampleRate / (2 * fd.length)
           let magnitude := linMag (fd.getD j 0)
           if 1 ≤ j ∧ 80 ≤ frequency ∧ frequency ≤ 2000 ∧ (0.001 : ℝ) ≤ magnitude ∧
              chromaClassOf frequency =
                ((chromaClassOf ((i : ℝ) * cfgSampleRate / (2 * fd.length))).toNat : ℤ)
           then magnitude else 0))
          (fun j _ => ?_) (Finset.mem_range.mpr h2))
      · dsimp only
        rw [if_pos ⟨h1, h3, h4, h5, (Int.toNat_of_nonneg hcnn).symm ▸ rfl⟩]
        exact linMag_pos _
      · dsimp only
        split
        · exact (linMag_pos _).le
        · exact le_refl 0
    refine lt_of_lt_of_le hterm
      (List.single_le_sum (chromaRawList_nonneg fd) _ (List.mem_map.mpr
        ⟨(chromaClassOf ((i : ℝ) * cfgSampleRate / (2 * fd.length))).toNat,
          List.mem_range.mpr ((Int.toNat_lt hcnn).mpr (by exact_mod_cast hclt)), rfl⟩))

theorem chromaVector_length (fd : List ℝ) : (chromaVector fd).length = 12 := by
  unfold chromaVector chromaRawList
  dsimp only
  split <;> simp

theorem chromaVector_nonneg (fd : List ℝ) : ∀ x ∈ chromaVector fd, 0 ≤ x := by
  unfold chromaVector
  dsimp only
  split
  · rename_i hs
    intro x hx
    obtain ⟨y, hy, rfl⟩ := List.mem_map.mp hx
    exact div_nonneg (chromaRawList_nonneg fd y hy) hs.le
  · exact chromaRawList_nonneg fd

theorem list_sum_map_div (l : List ℝ) (r : ℝ) :
    (l.map (fun x => x / r)).sum = l.sum / r := by
  induction l with
  | nil => simp
  | cons a t ih => simp [ih, add_div]

theorem chromaVector_sum (fd : List ℝ) :
    (chromaVector fd).sum = 1 ∨ ∀ x ∈ chromaVector fd, x = 0 := by
  unfold chromaVector
  dsimp only
  by_cases hs : 0 < (chromaRawList fd).sum
  · left
    rw [if_pos hs, list_sum_map_div, div_self hs.ne']
  · right
    rw [if_neg hs]
    have hz : (chromaRawList fd).sum = 0 :=
      le_antisymm (not_lt.mp hs) (List.sum_nonneg (chromaRawList_nonneg fd))
    exact fun x hx => le_antisymm
      (hz ▸ List.single_le_sum (chromaRawList_nonneg fd) x hx)
      (chromaRawList_nonneg fd x hx)

theorem chromaVector_allzero_iff (fd : List ℝ) :
    (∀ x ∈ chromaVector fd, x = 0) ↔ ¬ ∃ i, contributingBin fd i := by
  rw [← chromaSum_pos_iff]
  unfold chromaVector
  dsimp only
  by_cases hs : 0 < (chromaRawList fd).sum
  · rw [if_pos hs]
    constructor
    · intro hall
      obtain ⟨y, hy, hypos⟩ := exists_pos_of_sum_pos (chromaRawList_nonneg fd) hs
      have hz := hall (y / (chromaRawList fd).sum) (List.mem_map.mpr ⟨y, hy, rfl⟩)
      rw [div_eq_zero_iff] at hz
      rcases hz with h0 | h0
      · exact absurd h0 hypos.ne'
      · exact absurd h0 hs.ne'
    · intro hfalse
      exact absurd hs hfalse
  · rw [if_neg hs]
    have hz : (chromaRawList fd).sum = 0 :=
      le_antisymm (not_lt.mp hs) (List.sum_nonneg (chromaRawList_nonneg fd))
    exact ⟨fun _ => hs, fun _ x hx => le_antisymm
      (hz ▸ List.single_le_sum (chromaRawList_nonneg fd) x hx)
      (chromaRawList_nonneg fd x hx)⟩

theorem domFold_eq_or_mem (l : List (ℕ × ℝ)) (acc : ℕ × ℝ) :
    l.foldl domStep acc = acc ∨ l.foldl domStep acc ∈ l := by
  induction l generalizing acc with
  | nil => exact Or.inl rfl
  | cons f rest ih =>
    rw [List.foldl_cons]
    rcases ih (domStep acc f) with heq | hmem
    · rw [heq]
      unfold domStep
      split
      · exact Or.inr (List.mem_cons_self f rest)
      · exact Or.inl rfl
    · exact Or.inr (List.mem_cons_of_mem f hmem)

theorem domFold_ge_acc (l : List (ℕ × ℝ)) (acc : ℕ × ℝ) :
    acc.2 ≤ (l.foldl domStep acc).2 := by
  induction l generalizing acc with
  | nil => exact le_refl _
  | cons f rest ih =>
    rw [List.foldl_cons]
    refine le_trans ?_ (ih (domStep acc f))
    unfold domStep
    split
    · exact le_of_lt (by assumption)
    · exact le_refl _

theorem domFold_ge_mem (l : List (ℕ × ℝ)) (acc : ℕ × ℝ) :
    ∀ p ∈ l, p.2 ≤ (l.foldl domStep acc).2 := by
  induction l generalizing acc with
  | nil => intro p hp; exact absurd hp (List.not_mem_nil p)
  | cons f rest ih =>
    intro p hp
    rw [List.foldl_cons]
    rcases List.mem_cons.mp hp with rfl | hmem
    · refine le_trans ?_ (domFold_ge_acc rest (domStep acc p))
      unfold domStep
      split
      · exact le_refl _
      · exact le_of_not_lt (by assumption)
    · exact ih (domStep acc f) p hmem

theorem argmax_spec (v : List ℝ) (hne : v ≠ []) :
    (v.enum.foldl domStep (0, v.getD 0 0)).1 < v.length ∧
    v.getD (v.enum.foldl domStep (0, v.getD 0 0)).1 0 =
      (v.enum.foldl domStep (0, v.getD 0 0)).2 ∧
    ∀ j < v.length, v.getD j 0 ≤ (v.enum.foldl domStep (0, v.getD 0 0)).2 := by
  have hmemj : ∀ j, j < v.length → (j, v.getD j 0) ∈ v.enum := by
    intro j hj
    rw [List.mem_enum_iff_getElem?]
    dsimp only
    rw [List.getD_eq_getElem?_getD, List.getElem?_eq_getElem hj]
    rfl
  have hkey : (v.enum.foldl domStep (0, v.getD 0 0)).1 < v.length ∧
      v.getD (v.enum.foldl domStep (0, v.getD 0 0)).1 0 =
        (v.enum.foldl domStep (0, v.getD 0 0)).2 := by
    rcases domFold_eq_or_mem v.enum (0, v.getD 0 0) with heq | hmem
    · rw [heq]
      exact ⟨List.length_pos.mpr hne, rfl⟩
    · rw [List.mem_enum_iff_getElem?] at hmem
      refine ⟨(List.getElem?_eq_some_iff.mp hmem).1, ?_⟩
      rw [List.getD_eq_getElem?_getD, hmem]
      rfl
  exact ⟨hkey.1, hkey.2, fun j hj => domFold_ge_mem v.enum _ _ (hmemj j hj)⟩

/-- C7 (amended): for every magnitude spectrum the chroma vector has
exactly 12 non-negative entries that sum to 1 or are all zero; it is
all-zero exactly when no bin (index ≥ 1) in `[80, 2000]` Hz has linear
magnitude **at least** 0.001; `dominant` is an index attaining the maximum
entry, and `confidence` is that maximum normalized value. -/
theorem C7_chroma_invariants (fd : List ℝ) :
    (calculateChroma fd).vector.length = 12 ∧
    (∀ x ∈ (calculateChroma fd).vector, 0 ≤ x) ∧
    ((calculateChroma fd).vector.sum = 1 ∨
      ∀ x ∈ (calculateChroma fd).vector, x = 0) ∧
    ((∀ x ∈ (calculateChroma fd).vector, x = 0) ↔
      ¬ ∃ i, contributingBin fd i) ∧
    (calculateChroma fd).dominant < 12 ∧
    (∀ j < 12, (calculateChroma fd).vector.getD j 0 ≤
      (calculateChroma fd).vector.getD (calculateChroma fd).dominant 0) ∧
    (calculateChroma fd).confidence =
      (calculateChroma fd).vector.getD (calculateChroma fd).dominant 0 := by
  have hne : chromaVector fd ≠ [] := by
    intro hcon
    have hl := chromaVector_length fd
    rw [hcon] at hl
    simp at hl
  obtain ⟨hd1, hd2, hd3⟩ := argmax_spec (chromaVector fd) hne
  refine ⟨chromaVector_length fd, chromaVector_nonneg fd, chromaVector_sum fd,
    chromaVector_allzero_iff fd, ?_, ?_, ?_⟩
  · exact (chromaVector_length fd) ▸ hd1
  · intro j hj
    have hveq : (calculateChroma fd).vector = chromaVector fd := rfl
    have hdeq : (calculateChroma fd).dominant =
      (List.foldl domStep (0, (chromaVector fd).getD 0 0)
        (chromaVector fd).enum).1 := rfl
    rw [hveq, hdeq, hd2]
    exact hd3 j (by rw [chromaVector_length fd]; exact hj)
  · have hveq : (calculateChroma fd).vector = chromaVector fd := rfl
    have hdeq : (calculateChroma fd).dominant =
      (List.foldl domStep (0, (chromaVector fd).getD 0 0)
        (chromaVector fd).enum).1 := rfl
    have hceq : (calculateChroma fd).confidence =
      (List.foldl domStep (0, (chromaVector fd).getD 0 0)
        (chromaVector fd).enum).2 := rfl
    rw [hceq, hveq, hdeq, hd2]

theorem C7_chroma_invariants_witness :
    (calculateChroma []).vector.length = 12 ∧
    (calculateChroma []).vector.getD 0 0 ≤
      (calculateChroma []).vector.getD (calculateChroma []).dominant 0 :=
  ⟨(C7_chroma_invariants []).1,
   (C7_chroma_invariants []).2.2.2.2.2.1 0 (by norm_num)⟩

theorem C7_chroma_boundary_counterexample :
    (¬ ∃ i, 1 ≤ i ∧
      i < ([0, -60, 0, 0, 0, 0, 0, 0, 0, 0, 0, (0 : ℝ)] : List ℝ).length ∧
      80 ≤ (i : ℝ) * cfgSampleRate /
        (2 * ([0, -60, 0, 0, 0, 0, 0, 0, 0, 0, 0, (0 : ℝ)] : List ℝ).length) ∧
      (i : ℝ) * cfgSampleRate /
        (2 * ([0, -60, 0, 0, 0, 0, 0, 0, 0, 0, 0, (0 : ℝ)] : List ℝ).length) ≤ 2000 ∧
      (0.001 : ℝ) <
        linMag (([0, -60, 0, 0, 0, 0, 0, 0, 0, 0, 0, (0 : ℝ)] : List ℝ).getD i 0)) ∧
    ¬ (∀ x ∈ (calculateChroma [0, -60, 0, 0, 0, 0, 0, 0, 0, 0, 0, (0 : ℝ)]).vector,
        x = 0) := by
  constructor
  · rintro ⟨i, h1, h2, h3, h4, h5⟩
    simp only [List.length_cons, List.length_nil] at h2
    interval_cases i
    · rw [show ([0, -60, 0, 0, 0, 0, 0, 0, 0, 0, 0, (0 : ℝ)] : List ℝ).getD 1 0 =
        (-60 : ℝ) from rfl, linMag_neg60] at h5
      norm_num at h5
    all_goals norm_num [cfgSampleRate] at h4
  · intro hall
    refine absurd ⟨1, by norm_num, by norm_num, ?_, ?_, ?_⟩
      ((chromaVector_allzero_iff [0, -60, 0, 0, 0, 0, 0, 0, 0, 0, 0, (0 : ℝ)]).mp hall)
    · norm_num [cfgSampleRate]
    · norm_num [cfgSampleRate]
    · rw [show ([0, -60, 0, 0, 0, 0, 0, 0, 0, 0, 0, (0 : ℝ)] : List ℝ).getD 1 0 =
        (-60 : ℝ) from rfl, linMag_neg60]
      norm_num

end AudioProc

namespace AudioProc

theorem calculateRMS_zero {timeData : List ℝ} (hz : ∀ x ∈ timeData, x = 0) :
    calculateRMS timeData = 0 := by
  unfold calculateRMS
  rw [List.sum_eq_zero (fun y hy => ?_)]
  · simp
  · obtain ⟨x, hx, rfl⟩ := List.mem_map.mp hy
    rw [hz x hx]
    ring

theorem amplitudeDBOf_zero {timeData : List ℝ} (hz : ∀ x ∈ timeData, x = 0) :
    amplitudeDBOf timeData = -90 := by
  unfold amplitudeDBOf
  dsimp only
  rw [calculateRMS_zero hz, if_neg (lt_irrefl 0)]

theorem silentGate_closed (s : ProcState) (hthr : s.thresholdMin = -65)
    {timeData : List ℝ} (hz : ∀ x ∈ timeData, x = 0) :
    applyNoiseGate (updateNoiseFloor s.noiseFloor (amplitudeDBOf timeData))
      s.thresholdMin (amplitudeDBOf timeData) = false := by
  rw [amplitudeDBOf_zero hz, hthr]
  unfold applyNoiseGate
  exact decide_eq_false (not_lt.mpr
    (le_trans (by norm_num : (-90 : ℝ) ≤ -65) (le_max_right _ _)))

/-- C5 (amended): for an all-zero input time-domain buffer under the
default gate threshold (−65 dB), the noise gate remains closed and the
tick degrades to the neutral output: state `idle`, null pitch, null
chroma, and **no harmony analysis at all** (`harmonyAnalysis = null`; the
source never builds a `harmonyType = 'none'` record on the closed-gate
path), with no exception raised (the model is total). -/
theorem C5_silent_frame (s : ProcState) (now : ℝ)
    (timeData frequencyData : List ℝ) (hthr : s.thresholdMin = -65)
    (hz : ∀ x ∈ timeData, x = 0) :
    (processTick s now timeData frequencyData).1.noiseGateOpen = false ∧
    (processTick s now timeData frequencyData).1.state = .IDLE ∧
    (processTick s now timeData frequencyData).1.pitch = none ∧
    (processTick s now timeData frequencyData).1.chroma = none ∧
    (processTick s now timeData frequencyData).1.harmonyAnalysis = none := by
  unfold processTick
  dsimp only
  rw [silentGate_closed s hthr hz]
  simp only [Bool.false_eq_true, if_false]
  exact ⟨trivial, trivial, trivial, trivial, trivial⟩

theorem processTick_silent_concrete :
    (processTick initialState 0 [0, 0, 0, 0] []).1.harmonyAnalysis = none := by
  unfold processTick
  dsimp only
  rw [silentGate_closed initialState rfl (by simp)]
  simp only [Bool.false_eq_true, if_false]

theorem C5_silent_frame_witness :
    (processTick initialState 0 [0, 0, 0, 0] []).1.noiseGateOpen = false ∧
    (processTick initialState 0 [0, 0, 0, 0] []).1.state = .IDLE ∧
    (processTick initialState 0 [0, 0, 0, 0] []).1.pitch = none ∧
    (processTick initialState 0 [0, 0, 0, 0] []).1.chroma = none ∧
    (processTick initialState 0 [0, 0, 0, 0] []).1.harmonyAnalysis = none :=
  C5_silent_frame initialState 0 [0, 0, 0, 0] [] rfl (by simp)

theorem C5_silent_frame_counterexample :
    ¬ ∃ ha, (processTick initialState 0 [0, 0, 0, 0] []).1.harmonyAnalysis =
        some ha ∧ ha.harmonyType = HarmonyType.none ∧
      ha.melodyNotes = [] ∧ ha.chordNotes = [] := by
  rintro ⟨ha, hha, _⟩
  rw [processTick_silent_concrete] at hha
  exact Option.noConfusion hha

end AudioProc

namespace AudioProc

theorem C2_musical_classification_witness :
    ((isMusicalContent initialState [] [] ⟨0, 0, 0⟩).1 = true ↔
      musicalSpecD initialState [] [] ⟨0, 0, 0⟩) :=
  C2_musical_classification initialState [] [] ⟨0, 0, 0⟩

theorem C3_ranked_candidate_merge_witness :
    detectMultiplePitches 0 [] [] =
      ((specMergePitches
          (match detectPitch 0 [] with | none => [] | some p => [p])
          (detectSpectralPeaks 0 [])).mergeSort
        (fun a b => decide (b.confidence ≤ a.confidence))).take 6 :=
  (C3_ranked_candidate_merge 0 [] []).1

theorem C6_noise_floor_update_and_gate_witness :
    (processTick initialState 0 [] []).2.noiseFloor =
      initialState.noiseFloor * (1 - 0.001) + amplitudeDBOf [] * 0.001 :=
  (C6_noise_floor_update_and_gate initialState 0 [] []).1

end AudioProc
